import Mathlib

/-!
# Verification of the thestuu native-engine wire protocol and transport clock

Shallow embedding of `apps/native-engine/src/main.cpp`:
the MessagePack-subset value codec (`encodeValue` / `Decoder::readValue`),
the length-prefixed framing layer (`processIncomingBuffer`), the payload
field accessors (`asInt`, `asDouble`, ...), the software transport clock
(`TransportCore`) and the command dispatcher (`handleRequest`).

Modelling conventions:
* bytes are `Nat` (values `< 256` where well-formedness matters);
* C++ `int64_t` is `Int` with explicit range conditions;
* a `double` travelling on the wire is its IEEE-754 bit pattern (`Nat < 2^64`,
  the codec only copies bits); a `double` used in arithmetic by the dispatcher
  and the clock is modelled exactly as a rational together with the
  non-finite special values (type `Dbl`), the usual exact-real abstraction of
  floating point;
* `std::map<std::string, MsgValue>` is a key-sorted association list
  (byte-lexicographic order, unique keys), and `operator[]` is ordered
  insert-or-assign;
* wall-clock time (`steady_clock` / `system_clock`) is an integer count of
  milliseconds passed explicitly to every operation that reads the clock;
* socket writes always succeed in the model (I/O failure is outside the
  embedded logic), and the decoder carries explicit fuel (one unit per
  nested `readValue` call) to make the recursion structural.
-/

namespace Thestuu

/-- Big-endian bytes of a 16-bit value (`writeUint16BE`). -/
def be16 (v : Nat) : List Nat := [v / 2 ^ 8 % 256, v % 256]

/-- Big-endian bytes of a 32-bit value (`writeUint32BE`). -/
def be32 (v : Nat) : List Nat :=
  [v / 2 ^ 24 % 256, v / 2 ^ 16 % 256, v / 2 ^ 8 % 256, v % 256]

/-- Big-endian bytes of a 64-bit value (`writeUint64BE`). -/
def be64 (v : Nat) : List Nat :=
  [v / 2 ^ 56 % 256, v / 2 ^ 48 % 256, v / 2 ^ 40 % 256, v / 2 ^ 32 % 256,
   v / 2 ^ 24 % 256, v / 2 ^ 16 % 256, v / 2 ^ 8 % 256, v % 256]

/-- Value of big-endian bytes (shift-and-or accumulation of the reader). -/
def beVal (bs : List Nat) : Nat := bs.foldl (fun a b => a * 256 + b) 0

/-- The bytes of a C++ string literal (ASCII code points). -/
def sb (s : String) : List Nat := s.data.map Char.toNat

/-- `std::string` `operator<`: byte-lexicographic comparison. -/
def keyLtB : List Nat → List Nat → Bool
  | [], [] => false
  | [], _ :: _ => true
  | _ :: _, [] => false
  | a :: as, b :: bs => if a < b then true else if b < a then false else keyLtB as bs

/-- The protocol value type `MsgValue` (tagged union over
`monostate / bool / int64_t / double / string / Object / Array`).
A float is carried as its IEEE-754 bit pattern; an `Object` is the
key-sorted association list representing `std::map<std::string, MsgValue>`. -/
inductive MsgValue : Type where
  | mnil : MsgValue
  | mbool : Bool → MsgValue
  | mint : Int → MsgValue
  | mfloat : Nat → MsgValue
  | mstr : List Nat → MsgValue
  | marr : List MsgValue → MsgValue
  | mobj : List (List Nat × MsgValue) → MsgValue

abbrev Obj := List (List Nat × MsgValue)

/-- Well-formed string payload: genuine bytes, length representable in
`uint32` (the encoder casts the length to `uint32`). -/
def wfStr (s : List Nat) : Bool := decide (s.length < 2 ^ 32) && s.all (· < 256)

mutual

/-- Representable `MsgValue`: `int64_t` range for integers, 64-bit patterns
for floats, `uint32`-sized strings/arrays/maps, and map entries strictly
sorted by key (the `std::map` invariant). -/
def wfValue : MsgValue → Bool
  | .mnil => true
  | .mbool _ => true
  | .mint n => decide (-(2 ^ 63) ≤ n) && decide (n < 2 ^ 63)
  | .mfloat bits => decide (bits < 2 ^ 64)
  | .mstr s => wfStr s
  | .marr xs => decide (xs.length < 2 ^ 32) && wfList xs
  | .mobj kvs => decide (kvs.length < 2 ^ 32) && wfPairs kvs && sortedPairs kvs
termination_by structural v => v

def wfList : List MsgValue → Bool
  | [] => true
  | x :: xs => wfValue x && wfList xs
termination_by structural l => l

def wfPairs : Obj → Bool
  | [] => true
  | (k, v) :: r => wfStr k && wfValue v && wfPairs r
termination_by structural l => l

/-- Keys strictly increasing (adjacent comparison suffices by transitivity). -/
def sortedPairs : Obj → Bool
  | [] => true
  | [_] => true
  | a :: b :: r => keyLtB a.1 b.1 && sortedPairs (b :: r)
termination_by structural l => l

end

/-- `encodeInt` (main.cpp lines 100-148): smallest MessagePack representation
of an `int64_t`.  `static_cast<uintN_t>` of a negative number is the
two's-complement residue `n mod 2^N`. -/
def encodeInt (n : Int) : List Nat :=
  if 0 ≤ n then
    let v := n.toNat
    if v ≤ 0x7F then [v]
    else if v ≤ 0xFF then [0xCC, v]
    else if v ≤ 0xFFFF then 0xCD :: be16 v
    else if v ≤ 0xFFFFFFFF then 0xCE :: be32 v
    else 0xCF :: be64 v
  else
    if -32 ≤ n then [(n % 256).toNat]
    else if -128 ≤ n then [0xD0, (n % 256).toNat]
    else if -32768 ≤ n then 0xD1 :: be16 (n % 2 ^ 16).toNat
    else if -(2 ^ 31) ≤ n then 0xD2 :: be32 (n % 2 ^ 32).toNat
    else 0xD3 :: be64 (n % 2 ^ 64).toNat

/-- `encodeString` (main.cpp lines 83-98). -/
def encodeString (s : List Nat) : List Nat :=
  (if s.length ≤ 31 then [0xA0 + s.length]
   else if s.length ≤ 0xFF then [0xD9, s.length]
   else if s.length ≤ 0xFFFF then 0xDA :: be16 s.length
   else 0xDB :: be32 s.length) ++ s

mutual

/-- `encodeValue` (main.cpp lines 150-207). -/
def encodeValue : MsgValue → List Nat
  | .mnil => [0xC0]
  | .mbool b => [if b then 0xC3 else 0xC2]
  | .mint n => encodeInt n
  | .mfloat bits => 0xCB :: be64 bits
  | .mstr s => encodeString s
  | .mobj kvs =>
    (if kvs.length ≤ 15 then [0x80 + kvs.length]
     else if kvs.length ≤ 0xFFFF then 0xDE :: be16 kvs.length
     else 0xDF :: be32 kvs.length) ++ encodePairs kvs
  | .marr xs =>
    (if xs.length ≤ 15 then [0x90 + xs.length]
     else if xs.length ≤ 0xFFFF then 0xDC :: be16 xs.length
     else 0xDD :: be32 xs.length) ++ encodeList xs
termination_by structural v => v

/-- Encoding of array elements in order. -/
def encodeList : List MsgValue → List Nat
  | [] => []
  | x :: xs => encodeValue x ++ encodeList xs
termination_by structural l => l

/-- Encoding of map entries in (sorted) iteration order: key then value. -/
def encodePairs : Obj → List Nat
  | [] => []
  | (k, v) :: r => encodeString k ++ encodeValue v ++ encodePairs r
termination_by structural l => l

end

/-! ## Doubles

A finite IEEE-754 double is exactly a rational number; the dispatcher and the
transport clock are modelled over exact rationals plus the non-finite
specials.  Bit patterns appear only at the codec boundary. -/

/-- A C++ `double` as seen by arithmetic code: an exact rational, an
infinity, or a NaN. -/
inductive Dbl : Type where
  | fin (q : ℚ) : Dbl
  | inf (neg : Bool) : Dbl
  | nan : Dbl
  deriving DecidableEq

/-- Exponent field of a 64-bit pattern. -/
def expField (bits : Nat) : Nat := bits / 2 ^ 52 % 2 ^ 11

/-- Mantissa field of a 64-bit pattern. -/
def mantField (bits : Nat) : Nat := bits % 2 ^ 52

/-- Sign bit of a 64-bit pattern. -/
def signField (bits : Nat) : Nat := bits / 2 ^ 63 % 2

/-- `std::isfinite` on a bit pattern. -/
def isFiniteBits (bits : Nat) : Bool := expField bits ≠ 2 ^ 11 - 1

/-- Exact rational value of a finite 64-bit pattern. -/
def finBitsToRat (bits : Nat) : ℚ :=
  let sign : ℚ := if signField bits = 1 then -1 else 1
  if expField bits = 0 then
    sign * (mantField bits : ℚ) * (2 : ℚ) ^ (-1074 : ℤ)
  else
    sign * ((2 ^ 52 + mantField bits : Nat) : ℚ) * (2 : ℚ) ^ ((expField bits : ℤ) - 1075)

/-- Read a 64-bit pattern as a `Dbl` (exact; `-0.0` reads as `0`). -/
def toD (bits : Nat) : Dbl :=
  if expField bits = 2 ^ 11 - 1 then
    if mantField bits = 0 then .inf (signField bits = 1) else .nan
  else .fin (finBitsToRat bits)

/-- Round a positive rational to an integer, ties to even. -/
def roundNearestEven (q : ℚ) : ℤ :=
  let n := Int.fdiv q.num q.den
  let frac := q - (n : ℚ)
  if frac > 1 / 2 then n + 1
  else if frac < 1 / 2 then n
  else if n % 2 = 0 then n else n + 1

/-- Nearest binary64 bit pattern for a rational (round to nearest, ties to
even; overflow to infinity).  Used only where the model has to materialise a
wire float from clock arithmetic; no theorem depends on its rounding. -/
def ratToBits (q : ℚ) : Nat :=
  if q = 0 then 0
  else
    let s : Nat := if q < 0 then 1 else 0
    let a : ℚ := |q|
    let e : ℤ := Int.log 2 a
    if e < -1022 then
      -- subnormal range: fixed scale 2^-1074
      let m := (roundNearestEven (a * (2 : ℚ) ^ (1074 : ℤ))).toNat
      if m < 2 ^ 52 then s * 2 ^ 63 + m
      else s * 2 ^ 63 + 1 * 2 ^ 52 + (m - 2 ^ 52)
    else
      let m := (roundNearestEven (a * (2 : ℚ) ^ (52 - e))).toNat
      let (e', m') := if m ≥ 2 ^ 53 then (e + 1, 2 ^ 52) else (e, m)
      if e' > 1023 then s * 2 ^ 63 + (2 ^ 11 - 1) * 2 ^ 52
      else s * 2 ^ 63 + (e' + 1075 - 52).toNat * 2 ^ 52 + (m' - 2 ^ 52)

/-- Bit pattern of a `Dbl` (canonical quiet NaN for `nan`). -/
def bitsOfD : Dbl → Nat
  | .fin q => ratToBits q
  | .inf neg => (if neg then 1 else 0) * 2 ^ 63 + (2 ^ 11 - 1) * 2 ^ 52
  | .nan => (2 ^ 11 - 1) * 2 ^ 52 + 2 ^ 51

/-- Widening a `float` (binary32) bit pattern to binary64, as the decoder
case `0xCA` does via `static_cast<double>(float)` (exact). -/
def f32ToF64Bits (b : Nat) : Nat :=
  let s := b / 2 ^ 31 % 2
  let e := b / 2 ^ 23 % 2 ^ 8
  let m := b % 2 ^ 23
  if e = 255 then s * 2 ^ 63 + (2 ^ 11 - 1) * 2 ^ 52 + m * 2 ^ 29
  else if e = 0 then
    if m = 0 then s * 2 ^ 63
    else ratToBits ((if s = 1 then -1 else 1) * (m : ℚ) * (2 : ℚ) ^ (-149 : ℤ))
  else s * 2 ^ 63 + (e - 127 + 1023) * 2 ^ 52 + m * 2 ^ 29

/-- C++ truncation toward zero of an exact rational
(`static_cast<int64_t>(double)` on in-range values). -/
def ratTrunc (q : ℚ) : ℤ :=
  if q < 0 then -Int.fdiv (-q).num (-q).den else Int.fdiv q.num q.den

/-- `std::floor` on an exact rational. -/
def ratFloor (q : ℚ) : ℤ := Int.fdiv q.num q.den

/-! ## Decoder -/

/-- The decoder's distinct failure kinds: the three `throw` sites of
`Decoder` (`unexpected end of MessagePack buffer`, `unsupported MessagePack
marker`, `MessagePack map key must be string`), plus fuel exhaustion, an
artefact of the model that cannot occur at the fuel `decodeFrame` supplies. -/
inductive DErr : Type where
  | unexpectedEnd : DErr
  | unsupportedTag : DErr
  | nonStringKey : DErr
  | fuelOut : DErr
  deriving DecidableEq

/-- Take exactly `n` bytes (`Decoder::ensure` plus the reads). -/
def takeN : Nat → List Nat → Except DErr (List Nat × List Nat)
  | 0, bs => .ok ([], bs)
  | _ + 1, [] => .error .unexpectedEnd
  | n + 1, b :: bs => do
    let (xs, r) ← takeN n bs
    .ok (b :: xs, r)

/-- Read a `w`-byte big-endian unsigned value
(`readUint8` / `readUint16` / `readUint32` / `readUint64`). -/
def readBE (w : Nat) (bs : List Nat) : Except DErr (Nat × List Nat) := do
  let (xs, r) ← takeN w bs
  .ok (beVal xs, r)

/-- Sign-extend a `w`-bit unsigned value (`static_cast<intN_t>`). -/
def sext (w : Nat) (v : Nat) : Int :=
  if v < 2 ^ (w - 1) then (v : Int) else (v : Int) - 2 ^ w

/-- `std::map::operator[]` followed by assignment: ordered
insert-or-assign into the association list. -/
def objInsert : Obj → List Nat → MsgValue → Obj
  | [], k, v => [(k, v)]
  | (k', v') :: rest, k, v =>
    if keyLtB k k' then (k, v) :: (k', v') :: rest
    else if keyLtB k' k then (k', v') :: objInsert rest k v
    else (k', v) :: rest

/-- `Decoder::readArray`: `n` successive values, each read by `readVal`
(the reader at one less unit of fuel). -/
def readList (readVal : List Nat → Except DErr (MsgValue × List Nat)) :
    Nat → List Nat → Except DErr (List MsgValue × List Nat)
  | 0, bs => .ok ([], bs)
  | n + 1, bs => do
    let (v, r) ← readVal bs
    let (vs, r2) ← readList readVal n r
    .ok (v :: vs, r2)

/-- `Decoder::readMap`: `n` key/value pairs inserted into the object;
a non-string key throws. -/
def readPairs (readVal : List Nat → Except DErr (MsgValue × List Nat)) :
    Nat → List Nat → Obj → Except DErr (Obj × List Nat)
  | 0, bs, acc => .ok (acc, bs)
  | n + 1, bs, acc => do
    let (k, r) ← readVal bs
    match k with
    | .mstr s => do
      let (v, r2) ← readVal r
      readPairs readVal n r2 (objInsert acc s v)
    | _ => .error .nonStringKey

/-- `Decoder::readValue` (main.cpp lines 213-289).  The marker tests
`(m & 0xF0) == 0x80`, `(m & 0xF0) == 0x90`, `(m & 0xE0) == 0xA0` are written
as the equivalent `m / 16 = 8`, `m / 16 = 9`, `m / 32 = 5`, and the masks
`m & 0x0F`, `m & 0x1F` as `m % 16`, `m % 32`.  One unit of fuel is spent per
nested `readValue` call. -/
def readValue : Nat → List Nat → Except DErr (MsgValue × List Nat)
  | 0, _ => .error .fuelOut
  | _ + 1, [] => .error .unexpectedEnd
  | fuel + 1, m :: rest =>
    if m ≤ 0x7F then .ok (.mint m, rest)
    else if 0xE0 ≤ m ∧ m ≤ 0xFF then .ok (.mint ((m : Int) - 256), rest)
    else if m / 16 = 8 then do
      let (o, r) ← readPairs (readValue fuel) (m % 16) rest []
      .ok (.mobj o, r)
    else if m / 16 = 9 then do
      let (xs, r) ← readList (readValue fuel) (m % 16) rest
      .ok (.marr xs, r)
    else if m / 32 = 5 then do
      let (s, r) ← takeN (m % 32) rest
      .ok (.mstr s, r)
    else if m = 0xC0 then .ok (.mnil, rest)
    else if m = 0xC2 then .ok (.mbool false, rest)
    else if m = 0xC3 then .ok (.mbool true, rest)
    else if m = 0xCC then do
      let (v, r) ← readBE 1 rest
      .ok (.mint v, r)
    else if m = 0xCD then do
      let (v, r) ← readBE 2 rest
      .ok (.mint v, r)
    else if m = 0xCE then do
      let (v, r) ← readBE 4 rest
      .ok (.mint v, r)
    else if m = 0xCF then do
      let (v, r) ← readBE 8 rest
      if v ≤ (2 ^ 63 - 1 : Nat) then .ok (.mint v, r)
      else .ok (.mfloat (ratToBits (v : ℚ)), r)
    else if m = 0xD0 then do
      let (v, r) ← readBE 1 rest
      .ok (.mint (sext 8 v), r)
    else if m = 0xD1 then do
      let (v, r) ← readBE 2 rest
      .ok (.mint (sext 16 v), r)
    else if m = 0xD2 then do
      let (v, r) ← readBE 4 rest
      .ok (.mint (sext 32 v), r)
    else if m = 0xD3 then do
      let (v, r) ← readBE 8 rest
      .ok (.mint (sext 64 v), r)
    else if m = 0xCA then do
      let (v, r) ← readBE 4 rest
      .ok (.mfloat (f32ToF64Bits v), r)
    else if m = 0xCB then do
      let (v, r) ← readBE 8 rest
      .ok (.mfloat v, r)
    else if m = 0xD9 then do
      let (l, r) ← readBE 1 rest
      let (str, r2) ← takeN l r
      .ok (.mstr str, r2)
    else if m = 0xDA then do
      let (l, r) ← readBE 2 rest
      let (str, r2) ← takeN l r
      .ok (.mstr str, r2)
    else if m = 0xDB then do
      let (l, r) ← readBE 4 rest
      let (str, r2) ← takeN l r
      .ok (.mstr str, r2)
    else if m = 0xDC then do
      let (l, r) ← readBE 2 rest
      let (xs, r2) ← readList (readValue fuel) l r
      .ok (.marr xs, r2)
    else if m = 0xDD then do
      let (l, r) ← readBE 4 rest
      let (xs, r2) ← readList (readValue fuel) l r
      .ok (.marr xs, r2)
    else if m = 0xDE then do
      let (l, r) ← readBE 2 rest
      let (o, r2) ← readPairs (readValue fuel) l r []
      .ok (.mobj o, r2)
    else if m = 0xDF then do
      let (l, r) ← readBE 4 rest
      let (o, r2) ← readPairs (readValue fuel) l r []
      .ok (.mobj o, r2)
    else .error .unsupportedTag
termination_by structural fuel _ => fuel

/-- One whole-frame decode attempt: `Decoder decoder(frame);
decoder.readValue()` together with what remains for the `eof()` check.
`frame.length + 1` units of fuel always suffice, since every nested
`readValue` call consumes at least the marker byte. -/
def decodeFrame (frame : List Nat) : Except DErr (MsgValue × List Nat) :=
  readValue (frame.length + 1) frame

/-! ## Payload field accessors (main.cpp lines 377-445) -/

/-- `getField`: `std::map::find`, `nullptr` when absent. -/
def getField (object : Obj) (key : List Nat) : Option MsgValue :=
  match object with
  | [] => none
  | (k, v) :: rest => if k = key then some v else getField rest key

/-- `asObject`: the map payload of a value, if it is a map. -/
def asObject (value : Option MsgValue) : Option Obj :=
  match value with
  | some (.mobj o) => some o
  | _ => none

/-- `asString` with its fallback. -/
def asString (value : Option MsgValue) (fallback : List Nat := []) : List Nat :=
  match value with
  | some (.mstr s) => s
  | _ => fallback

/-- `asInt` (main.cpp lines 402-416): integers pass through, finite doubles
truncate, non-finite doubles and every other shape fall back. -/
def asInt (value : Option MsgValue) (fallback : Int := 0) : Int :=
  match value with
  | some (.mint n) => n
  | some (.mfloat bits) =>
    match toD bits with
    | .fin q => ratTrunc q
    | _ => fallback
  | _ => fallback

/-- `asDouble` (main.cpp lines 418-429): doubles pass through unconditionally
(no finiteness check in the source), integers convert, everything else falls
back. -/
def asDouble (value : Option MsgValue) (fallback : Dbl := .fin 0) : Dbl :=
  match value with
  | some (.mfloat bits) => toD bits
  | some (.mint n) => .fin (n : ℚ)
  | _ => fallback

/-- `asBool` (main.cpp lines 431-445). -/
def asBool (value : Option MsgValue) (fallback : Bool := false) : Bool :=
  match value with
  | some (.mbool b) => b
  | some (.mint n) => n ≠ 0
  | some (.mfloat bits) => toD bits ≠ .fin 0
  | _ => fallback

/-! ## Transport clock (main.cpp lines 491-575) -/

/-- Fixed time signature. -/
def kBeatsPerBar : ℚ := 4

/-- Fixed step resolution. -/
def kStepsPerBeat : ℚ := 4

/-- `clampBpm` (main.cpp lines 491-496): non-finite input resets to the
default 128, finite input is `std::clamp`ed to `[20, 300]`. -/
def clampBpm (bpm : Dbl) : ℚ :=
  match bpm with
  | .fin q => if q < 20 then 20 else if 300 < q then 300 else q
  | _ => 128

/-- `TransportCore` state (main.cpp lines 498-502); `startedAt` is the
steady-clock anchor in milliseconds. -/
structure TransportCore where
  playing : Bool := false
  bpm : ℚ := 128
  offsetBeats : ℚ := 0
  startedAt : Int := 0
  deriving DecidableEq

namespace TransportCore

/-- `positionBeatsAt` (main.cpp lines 504-511). -/
def positionBeatsAt (t : TransportCore) (now : Int) : ℚ :=
  if !t.playing then max 0 t.offsetBeats
  else max 0 (t.offsetBeats + ((now - t.startedAt : Int) : ℚ) * (t.bpm / 60000))

/-- `play` (main.cpp lines 513-519). -/
def play (t : TransportCore) (now : Int) : TransportCore :=
  if t.playing then t else { t with startedAt := now, playing := true }

/-- `pause` (main.cpp lines 521-528). -/
def pause (t : TransportCore) (now : Int) : TransportCore :=
  if !t.playing then t
  else { t with offsetBeats := t.positionBeatsAt now, startedAt := now, playing := false }

/-- `stop` (main.cpp lines 530-534). -/
def stop (t : TransportCore) (now : Int) : TransportCore :=
  { t with playing := false, offsetBeats := 0, startedAt := now }

/-- `seekToBeats` (main.cpp lines 536-539): non-finite targets become 0,
then clamp below at 0. -/
def seekToBeats (t : TransportCore) (next : Dbl) (now : Int) : TransportCore :=
  { t with
    offsetBeats := max 0 (match next with | .fin q => q | _ => 0)
    startedAt := now }

/-- `setBpm` (main.cpp lines 541-548): clamp, and while playing fold the
elapsed beats into `offsetBeats` before the tempo changes. -/
def setBpm (t : TransportCore) (next : Dbl) (now : Int) : TransportCore :=
  let clamped := clampBpm next
  let t' :=
    if t.playing then { t with offsetBeats := t.positionBeatsAt now, startedAt := now }
    else t
  { t' with bpm := clamped }

end TransportCore

/-- C++ `fmod` on exact rationals (remainder of truncating division). -/
def fmodQ (x y : ℚ) : ℚ := x - y * (ratTrunc (x / y) : ℚ)

/-- The locals computed by `TransportCore::snapshot` (main.cpp lines
550-574). -/
structure Snapshot where
  playing : Bool
  recording : Bool
  bpm : ℚ
  bar : Int
  beat : Int
  step : Int
  stepIndex : Int
  positionBars : ℚ
  positionBeats : ℚ
  timestamp : Int
  deriving DecidableEq

namespace TransportCore

/-- `TransportCore::snapshot` (main.cpp lines 550-574): bar/beat/step
derivation from the current position with the fixed 4/4 signature.
`nowSys` is the system-clock timestamp reported verbatim. -/
def snapshot (t : TransportCore) (now nowSys : Int) : Snapshot :=
  let positionBeats := t.positionBeatsAt now
  let positionBars := positionBeats / kBeatsPerBar
  let bar := ratFloor positionBars + 1
  let beat := ratFloor (fmodQ positionBeats kBeatsPerBar) + 1
  let stepIndex := Int.tmod (ratFloor (positionBeats * kStepsPerBeat)) 16
  { playing := t.playing
    recording := false
    bpm := t.bpm
    bar := bar
    beat := beat
    step := stepIndex + 1
    stepIndex := stepIndex
    positionBars := positionBars
    positionBeats := positionBeats
    timestamp := nowSys }

end TransportCore

/-! ## Response construction (main.cpp lines 672-704) -/

/-- Build a `MsgValue::Object` from an initializer list the way `std::map`
does: successive ordered insert-or-assign starting from the empty map. -/
def objOfList (entries : List (List Nat × MsgValue)) : Obj :=
  entries.foldl (fun acc kv => objInsert acc kv.1 kv.2) []

/-- `makeResponse` (main.cpp lines 672-679). -/
def makeResponse (id : Int) (payload : Obj) : MsgValue :=
  .mobj (objOfList
    [(sb "type", .mstr (sb "response")),
     (sb "id", .mint id),
     (sb "ok", .mbool true),
     (sb "payload", .mobj payload)])

/-- `makeErrorResponse` (main.cpp lines 681-689); the `logJson` side effect
is outside the model. -/
def makeErrorResponse (id : Int) (error : List Nat) : MsgValue :=
  .mobj (objOfList
    [(sb "type", .mstr (sb "response")),
     (sb "id", .mint id),
     (sb "ok", .mbool false),
     (sb "error", .mstr error)])

/-- A transport snapshot rendered as the response `Object`
(the return statement of `TransportCore::snapshot`); clock rationals
materialise as their nearest bit patterns. -/
def snapshotObject (s : Snapshot) : Obj :=
  objOfList
    [(sb "playing", .mbool s.playing),
     (sb "recording", .mbool s.recording),
     (sb "bpm", .mfloat (ratToBits s.bpm)),
     (sb "bar", .mint s.bar),
     (sb "beat", .mint s.beat),
     (sb "step", .mint s.step),
     (sb "stepIndex", .mint s.stepIndex),
     (sb "positionBars", .mfloat (ratToBits s.positionBars)),
     (sb "positionBeats", .mfloat (ratToBits s.positionBeats)),
     (sb "timestamp", .mint s.timestamp)]

/-! ## Command dispatcher (main.cpp lines 766-1305)

The model is the local-clock build: the stub backend reports
`info.tracktion = false` (tracktion_backend_stub.cpp), so
`g_useTracktionTransport` is `false` and every `transport.*` command drives
`TransportCore`.  Commands that only talk to the external device/plugin/clip
backend (spec §6: out-of-scope collaborator) are routed through the
`backendDispatch` parameter; no claim concerns them. -/

/-- C++ `double` multiplication under the exact-rational abstraction, with
IEEE special-value propagation. -/
def Dbl.mul : Dbl → Dbl → Dbl
  | .fin a, .fin b => .fin (a * b)
  | .nan, _ => .nan
  | .fin a, .inf s => if a = 0 then .nan else .inf (s ≠ decide (a < 0))
  | .fin _, .nan => .nan
  | .inf _, .nan => .nan
  | .inf s, .fin b => if b = 0 then .nan else .inf (s ≠ decide (b < 0))
  | .inf s, .inf s' => .inf (s ≠ s')

/-- `static_cast<int32_t>` of an `int64_t`: modular reduction and sign
extension. -/
def toInt32 (n : Int) : Int := sext 32 (Int.emod n (2 ^ 32)).toNat

/-- The commands handled purely by calls into the external backend
(main.cpp lines 934-1302). -/
def backendCommands : List (List Nat) :=
  [sb "audio.get_outputs", sb "audio.set_output", sb "vst:scan", sb "vst:load",
   sb "vst:editor:open", sb "vst:param:set", sb "clip:import-file",
   sb "track:set-mute", sb "track:set-solo", sb "track:set-volume",
   sb "track:set-pan", sb "track:set-record-arm", sb "audio.get_inputs",
   sb "audio.set_input"]

/-- A response carrying one transport snapshot, the shape every `transport.*`
command returns. -/
def transportResponse (id : Int) (t : TransportCore) (now nowSys : Int) : MsgValue :=
  makeResponse id (objOfList [(sb "transport", .mobj (snapshotObject (t.snapshot now nowSys)))])

/-- `handleRequest` (main.cpp lines 766-1305) for the local-clock build,
returning the response together with the mutated clock. -/
def handleRequest (backendDispatch : List Nat → Option Obj → Int → MsgValue)
    (request : Obj) (t : TransportCore) (now nowSys : Int) : MsgValue × TransportCore :=
  let id := asInt (getField request (sb "id")) 0
  let type := asString (getField request (sb "type"))
  if type ≠ sb "request" then
    (makeErrorResponse id (sb "message type must be \"request\""), t)
  else
    let cmd := asString (getField request (sb "cmd"))
    let payload := asObject (getField request (sb "payload"))
    if cmd = sb "transport.get_state" then
      (transportResponse id t now nowSys, t)
    else if cmd = sb "transport.ensure-context" ∨ cmd = sb "transport:ensure-context" then
      (makeResponse id [], t)
    else if cmd = sb "transport.play" then
      let t' := t.play now
      (transportResponse id t' now nowSys, t')
    else if cmd = sb "transport.record" then
      let t' := t.play now
      (transportResponse id t' now nowSys, t')
    else if cmd = sb "transport.pause" then
      let t' := t.pause now
      (transportResponse id t' now nowSys, t')
    else if cmd = sb "transport.stop" then
      let t' := t.stop now
      (transportResponse id t' now nowSys, t')
    else if cmd = sb "transport.set_bpm" then
      let bpm :=
        match payload with
        | some p => asDouble (getField p (sb "bpm")) (.fin t.bpm)
        | none => .fin t.bpm
      let t' := t.setBpm bpm now
      (transportResponse id t' now nowSys, t')
    else if cmd = sb "transport.seek" then
      let positionBeats :=
        match payload with
        | some p =>
          asDouble (getField p (sb "position_beats"))
            (asDouble (getField p (sb "positionBeats"))
              (Dbl.mul
                (asDouble (getField p (sb "position_bars"))
                  (Dbl.mul (asDouble (getField p (sb "positionBars")) (.fin 0))
                    (.fin kBeatsPerBar)))
                (.fin kBeatsPerBar)))
        | none => .fin 0
      let t' := t.seekToBeats positionBeats now
      (transportResponse id t' now nowSys, t')
    else if cmd = sb "edit:reset" then
      -- the stub backend's resetDefaultEdit always fails with this message
      (makeErrorResponse id (sb "edit:reset requires STUU_ENABLE_TRACKTION=ON"), t)
    else if cmd = sb "edit:clear-audio-clips" then
      (makeResponse id [], t)
    else if cmd = sb "edit:get-audio-clips" then
      (makeResponse id (objOfList [(sb "clips", .marr [])]), t)
    else if cmd = sb "backend.info" then
      (makeResponse id (objOfList [(sb "tracktion", .mbool false)]), t)
    else if cmd = sb "health.ping" then
      (makeResponse id (objOfList [(sb "pong", .mbool true)]), t)
    else if cmd ∈ backendCommands then
      (backendDispatch cmd payload id, t)
    else
      (makeErrorResponse id (sb "unknown cmd: " ++ cmd), t)

/-- Classifier used to state the accessor contracts: the shapes the numeric
accessors convert (`int64_t` and `double` variants). -/
def isNumericValue : Option MsgValue → Bool
  | some (.mint _) => true
  | some (.mfloat _) => true
  | _ => false

/-! ## Framing layer (main.cpp lines 1307-1362) -/

/-- Frame header length. -/
def kFrameHeaderBytes : Nat := 4

/-- Maximum frame body size (1,048,576). -/
def kMaxFrameSize : Nat := 1024 * 1024

/-- The bytes of one frame on the wire: big-endian `uint32` length then the
body (`sendFrame`'s header layout). -/
def frameBytes (body : List Nat) : List Nat := be32 body.length ++ body

/-- The framing-layer skeleton of `processIncomingBuffer` (lines 1308-1327):
repeatedly read the 4-byte big-endian header, reject an oversized
declaration (third component `false` = connection must close), wait when
fewer than `4 + size` bytes are buffered, otherwise split off the body.
Returns the extracted bodies in order, the unconsumed buffer, and the
keep-open flag. -/
def extractFrames (buffer : List Nat) : List (List Nat) × List Nat × Bool :=
  if h : kFrameHeaderBytes ≤ buffer.length then
    let frameSize := beVal (buffer.take 4)
    if frameSize > kMaxFrameSize then ([], buffer, false)
    else if buffer.length < kFrameHeaderBytes + frameSize then ([], buffer, true)
    else
      let body := (buffer.drop 4).take frameSize
      let rest := buffer.drop (4 + frameSize)
      let (bs, rem, ok) := extractFrames rest
      (body :: bs, rem, ok)
  else ([], buffer, true)
termination_by buffer.length
decreasing_by simp [kFrameHeaderBytes] at h ⊢; omega

/-- Successive `feed()` calls: each received chunk is appended to the
pending buffer and the framing layer is re-run (the read loop of `main`,
lines 1521-1528).  Returns all bodies extracted, in order, and the final
pending buffer. -/
def feedAll (st : List Nat) : List (List Nat) → List (List Nat) × List Nat
  | [] => ([], st)
  | c :: cs =>
    let (bs, st1, _) := extractFrames (st ++ c)
    let (bs', st2) := feedAll st1 cs
    (bs ++ bs', st2)

/-- What the connection loop observably does to one buffer. -/
structure ProcResult where
  sent : List MsgValue
  buffer : List Nat
  keepOpen : Bool
  transport : TransportCore

/-- The `error.what()` text reported for each decoder failure. -/
def decodeErrorMessage : DErr → List Nat
  | .unexpectedEnd => sb "unexpected end of MessagePack buffer"
  | .unsupportedTag => sb "unsupported MessagePack marker"
  | .nonStringKey => sb "MessagePack map key must be string"
  | .fuelOut => sb "decoder fuel exhausted"

/-- `processIncomingBuffer` (main.cpp lines 1307-1362): the full loop —
framing, whole-frame decode, trailing-byte and root-shape checks, dispatch —
with socket writes modelled as always succeeding. -/
def processIncomingBuffer (backendDispatch : List Nat → Option Obj → Int → MsgValue)
    (buffer : List Nat) (t : TransportCore) (now nowSys : Int) : ProcResult :=
  if h : kFrameHeaderBytes ≤ buffer.length then
    let frameSize := beVal (buffer.take 4)
    if frameSize > kMaxFrameSize then
      { sent := [makeErrorResponse 0 (sb "frame too large")],
        buffer := buffer, keepOpen := false, transport := t }
    else if buffer.length < kFrameHeaderBytes + frameSize then
      { sent := [], buffer := buffer, keepOpen := true, transport := t }
    else
      let frame := (buffer.drop 4).take frameSize
      let rest := buffer.drop (4 + frameSize)
      match decodeFrame frame with
      | .error e =>
        let r := processIncomingBuffer backendDispatch rest t now nowSys
        { r with sent := makeErrorResponse 0 (sb "decode error: " ++ decodeErrorMessage e) :: r.sent }
      | .ok (decoded, leftover) =>
        if leftover ≠ [] then
          let r := processIncomingBuffer backendDispatch rest t now nowSys
          { r with sent := makeErrorResponse 0 (sb "unexpected trailing bytes") :: r.sent }
        else
          match decoded with
          | .mobj request =>
            let (resp, t') := handleRequest backendDispatch request t now nowSys
            let r := processIncomingBuffer backendDispatch rest t' now nowSys
            { r with sent := resp :: r.sent }
          | _ =>
            let r := processIncomingBuffer backendDispatch rest t now nowSys
            { r with sent := makeErrorResponse 0 (sb "frame root must be map") :: r.sent }
  else { sent := [], buffer := buffer, keepOpen := true, transport := t }
termination_by buffer.length
decreasing_by all_goals (simp [kFrameHeaderBytes] at h ⊢; omega)

/-! # Properties

One theorem per claim, with shared helper lemmas. -/

lemma max_zero_max_zero (x : ℚ) : max 0 (max 0 x) = max 0 x := by
  rw [← max_assoc, max_self]

/-- C9: the integer encoder emits the byte-exact smallest representations:
`127 ↦ 0x7F`, `128 ↦ 0xCC 0x80`, `-1 ↦ 0xFF`, `-33 ↦ 0xD0 0xDF`. -/
theorem encodeInt_smallest_encodings :
    encodeInt 127 = [0x7F] ∧ encodeInt 128 = [0xCC, 0x80] ∧
    encodeInt (-1) = [0xFF] ∧ encodeInt (-33) = [0xD0, 0xDF] := by
  decide

/-- C2 counterexample: `asDouble` applied to a stored NaN does not return the
caller-supplied fallback — the source checks `std::isfinite` only in `asInt`,
not in `asDouble`. -/
theorem asDouble_nan_escapes_fallback :
    isFiniteBits 0x7FF8000000000000 = false ∧
    asDouble (some (MsgValue.mfloat 0x7FF8000000000000)) (Dbl.fin 0) = Dbl.nan ∧
    asDouble (some (MsgValue.mfloat 0x7FF8000000000000)) (Dbl.fin 0) ≠ Dbl.fin 0 := by
  refine ⟨by decide, by decide, by decide⟩

/-- C2 (amended): `asInt` returns the fallback when the field is absent,
wrong-typed, or holds a non-finite double; `asDouble` returns the fallback
when the field is absent or wrong-typed, but passes a stored double through
unchanged, non-finite values included. -/
theorem accessor_fallback_contract :
    (∀ v fb, isNumericValue v = false → asInt v fb = fb)
    ∧ (∀ bits fb, isFiniteBits bits = false → asInt (some (.mfloat bits)) fb = fb)
    ∧ (∀ v fb, isNumericValue v = false → asDouble v fb = fb)
    ∧ (∀ bits fb, asDouble (some (.mfloat bits)) fb = toD bits) := by
  refine ⟨?_, ?_, ?_, ?_⟩
  · intro v fb h
    match v with
    | none => rfl
    | some .mnil => rfl
    | some (.mbool _) => rfl
    | some (.mstr _) => rfl
    | some (.marr _) => rfl
    | some (.mobj _) => rfl
    | some (.mint _) => simp [isNumericValue] at h
    | some (.mfloat _) => simp [isNumericValue] at h
  · intro bits fb h
    have he : expField bits = 2 ^ 11 - 1 := by
      simpa [isFiniteBits] using h
    simp only [asInt, toD, he, if_pos]
    rcases Nat.eq_zero_or_pos (mantField bits) with h0 | h0
    · simp [h0]
    · simp [Nat.pos_iff_ne_zero.mp h0]
  · intro v fb h
    match v with
    | none => rfl
    | some .mnil => rfl
    | some (.mbool _) => rfl
    | some (.mstr _) => rfl
    | some (.marr _) => rfl
    | some (.mobj _) => rfl
    | some (.mint _) => simp [isNumericValue] at h
    | some (.mfloat _) => simp [isNumericValue] at h
  · intro bits fb
    rfl

/-- C2 witness: the contract evaluated at concrete inputs. -/
theorem accessor_fallback_contract_witness :
    asInt (some (.mstr (sb "x"))) 7 = 7
    ∧ asInt (some (.mfloat 0x7FF0000000000000)) 9 = 9
    ∧ asDouble (some (.mbool true)) (Dbl.fin 3) = Dbl.fin 3 := by
  refine ⟨accessor_fallback_contract.1 _ 7 (by decide),
          accessor_fallback_contract.2.1 _ 9 (by decide),
          accessor_fallback_contract.2.2.1 _ (Dbl.fin 3) (by decide)⟩

/-- C6: `setBpm` always stores the clamp of its input — a value in
`[20, 300]`, never an error — and the playback position at the instant of
the tempo change is unchanged (elapsed time is folded into `offsetBeats`
first when playing). -/
theorem setBpm_clamps_and_preserves_position (t : TransportCore) (bpm : Dbl) (now : Int) :
    (t.setBpm bpm now).bpm = clampBpm bpm
    ∧ 20 ≤ (t.setBpm bpm now).bpm
    ∧ (t.setBpm bpm now).bpm ≤ 300
    ∧ (t.setBpm bpm now).positionBeatsAt now = t.positionBeatsAt now := by
  have hlo : 20 ≤ clampBpm bpm := by
    match bpm with
    | .fin q =>
      simp only [clampBpm]
      split
      · exact le_refl _
      · split
        · norm_num
        · linarith [not_lt.mp (by assumption : ¬q < 20)]
    | .inf _ => norm_num [clampBpm]
    | .nan => norm_num [clampBpm]
  have hhi : clampBpm bpm ≤ 300 := by
    match bpm with
    | .fin q =>
      simp only [clampBpm]
      split
      · norm_num
      · split
        · exact le_refl _
        · linarith [not_lt.mp (by assumption : ¬300 < q)]
    | .inf _ => norm_num [clampBpm]
    | .nan => norm_num [clampBpm]
  have hbpm : (t.setBpm bpm now).bpm = clampBpm bpm := by
    cases ht : t.playing <;> simp [TransportCore.setBpm, ht]
  refine ⟨hbpm, hbpm ▸ hlo, hbpm ▸ hhi, ?_⟩
  cases ht : t.playing
  · simp [TransportCore.setBpm, TransportCore.positionBeatsAt, ht]
  · simp only [TransportCore.setBpm, TransportCore.positionBeatsAt, ht, if_pos,
      Bool.not_true, Bool.false_eq_true, if_false, sub_self, Int.cast_zero, zero_mul,
      add_zero]
    exact max_zero_max_zero _

/-- C7: after `pause` then `play` the clock resumes from the paused position
(and keeps counting forward from it) instead of resetting to 0, and `play`
on an already-playing clock is a no-op. -/
theorem pause_play_resumes (t : TransportCore) (n now1 now2 : Int) :
    ((t.pause now1).play now2).positionBeatsAt now2 = t.positionBeatsAt now1
    ∧ (t.playing = true → t.play n = t)
    ∧ (∀ d : Int, 0 ≤ d → 0 ≤ t.bpm → 0 ≤ t.offsetBeats →
        ((t.pause now1).play now2).positionBeatsAt (now2 + d)
          = t.positionBeatsAt now1 + (d : ℚ) * (t.bpm / 60000)) := by
  refine ⟨?_, ?_, ?_⟩
  · cases ht : t.playing
    · simp only [TransportCore.pause, TransportCore.play, TransportCore.positionBeatsAt, ht,
        Bool.not_false, if_pos, Bool.false_eq_true, if_false, Bool.not_true, sub_self,
        Int.cast_zero, zero_mul, add_zero]
    · simp only [TransportCore.pause, TransportCore.play, TransportCore.positionBeatsAt, ht,
        Bool.not_true, Bool.false_eq_true, if_false, Bool.not_false, if_pos, sub_self,
        Int.cast_zero, zero_mul, add_zero]
      exact max_zero_max_zero _
  · intro h
    simp [TransportCore.play, h]
  · intro d hd hbpm hoff
    have hmul : 0 ≤ (d : ℚ) * (t.bpm / 60000) := by
      apply mul_nonneg
      · exact_mod_cast hd
      · positivity
    cases ht : t.playing
    · simp only [TransportCore.pause, TransportCore.play, TransportCore.positionBeatsAt, ht,
        Bool.not_false, if_pos, Bool.false_eq_true, if_false, Bool.not_true]
      rw [max_eq_right hoff]
      have : ((now2 + d - now2 : Int) : ℚ) = (d : ℚ) := by
        push_cast
        ring
      rw [this, max_eq_right (by linarith)]
    · simp only [TransportCore.pause, TransportCore.play, TransportCore.positionBeatsAt, ht,
        Bool.not_true, Bool.false_eq_true, if_false, Bool.not_false, if_pos]
      have hP : (0 : ℚ) ≤ max 0 (t.offsetBeats + ((now1 - t.startedAt : Int) : ℚ) * (t.bpm / 60000)) :=
        le_max_left _ _
      have : ((now2 + d - now2 : Int) : ℚ) = (d : ℚ) := by
        push_cast
        ring
      rw [this, max_eq_right (by linarith)]

/-- C7 witness: a clock playing at 120 bpm from offset 5 anchored at 0,
paused at t=1000ms (position 7), resumed at t=2000ms: position 3ms after the
resume is 7 + 3·(120/60000); and `play` on the playing clock is a no-op. -/
theorem pause_play_resumes_witness :
    ({ playing := true, bpm := 120, offsetBeats := 5, startedAt := 0 } : TransportCore).play 7
      = { playing := true, bpm := 120, offsetBeats := 5, startedAt := 0 }
    ∧ ((({ playing := true, bpm := 120, offsetBeats := 5, startedAt := 0 } : TransportCore).pause
        1000).play 2000).positionBeatsAt 2003 = 7 + 3 * ((120 : ℚ) / 60000) := by
  constructor
  · exact (pause_play_resumes { playing := true, bpm := 120, offsetBeats := 5, startedAt := 0 }
      7 1000 2000).2.1 rfl
  · have h := (pause_play_resumes
      { playing := true, bpm := 120, offsetBeats := 5, startedAt := 0 }
      7 1000 2000).2.2 3 (by norm_num) (by norm_num) (by norm_num)
    have h2 : (2003 : Int) = 2000 + 3 := by norm_num
    rw [h2, h]
    norm_num [TransportCore.positionBeatsAt]

/-- C8: with the fixed 4/4 signature, a snapshot of a non-playing clock at
position 8 beats reports `bar = 3` and `beat = 1`, and the reported fields
follow `bar = ⌊pos/4⌋+1`, `beat = ⌊pos mod 4⌋+1`,
`stepIndex = ⌊pos*4⌋ mod 16`. -/
theorem snapshot_at_eight_beats (t : TransportCore) (now nowSys : Int)
    (hplay : t.playing = false) (hpos : t.positionBeatsAt now = 8) :
    (t.snapshot now nowSys).bar = 3
    ∧ (t.snapshot now nowSys).beat = 1
    ∧ (∀ (t' : TransportCore) (n ns : Int),
        (t'.snapshot n ns).bar = ratFloor (t'.positionBeatsAt n / 4) + 1
        ∧ (t'.snapshot n ns).beat = ratFloor (fmodQ (t'.positionBeatsAt n) 4) + 1
        ∧ (t'.snapshot n ns).stepIndex = Int.tmod (ratFloor (t'.positionBeatsAt n * 4)) 16) := by
  refine ⟨?_, ?_, fun t' n ns => ⟨rfl, rfl, rfl⟩⟩
  · show ratFloor (t.positionBeatsAt now / kBeatsPerBar) + 1 = 3
    rw [hpos]
    have e : (8 : ℚ) / kBeatsPerBar = 2 := by norm_num [kBeatsPerBar]
    rw [e, show ratFloor (2 : ℚ) = 2 by simp [ratFloor, Int.fdiv_one]]
    norm_num
  · show ratFloor (fmodQ (t.positionBeatsAt now) kBeatsPerBar) + 1 = 1
    rw [hpos]
    have e : (8 : ℚ) / kBeatsPerBar = 2 := by norm_num [kBeatsPerBar]
    have ht8 : ratTrunc ((8 : ℚ) / kBeatsPerBar) = 2 := by
      rw [e]
      norm_num [ratTrunc, Int.fdiv_one]
    have hm : fmodQ (8 : ℚ) kBeatsPerBar = 0 := by
      rw [fmodQ, ht8]
      norm_num [kBeatsPerBar]
    rw [hm, show ratFloor (0 : ℚ) = 0 by simp [ratFloor]]
    norm_num

/-- C8 witness: the non-playing clock seeked to 8 beats. -/
theorem snapshot_at_eight_beats_witness :
    (({ playing := false, bpm := 128, offsetBeats := 8, startedAt := 0 } : TransportCore).snapshot
      0 0).bar = 3
    ∧ (({ playing := false, bpm := 128, offsetBeats := 8, startedAt := 0 } : TransportCore).snapshot
      0 0).beat = 1 := by
  have h := snapshot_at_eight_beats
    { playing := false, bpm := 128, offsetBeats := 8, startedAt := 0 } 0 0 rfl (by decide)
  exact ⟨h.1, h.2.1⟩

/-- C10 counterexample: with `positionBars = -1` (a finite numeric value) the
claim's "position is set to 16·b" fails — `seekToBeats` clamps the target at
0, so the stored position is 0, not −16. -/
theorem seek_positionBars_negative_counterexample :
    (handleRequest (fun _ _ i => makeErrorResponse i [])
      (objOfList
        [(sb "type", .mstr (sb "request")),
         (sb "cmd", .mstr (sb "transport.seek")),
         (sb "id", .mint 1),
         (sb "payload", .mobj (objOfList [(sb "positionBars", .mint (-1))]))])
      {} 0 0).2.offsetBeats = 0
    ∧ (0 : ℚ) ≠ 16 * (-1 : ℚ) := by
  refine ⟨?_, by norm_num⟩
  have ht : getField (objOfList
      [(sb "type", .mstr (sb "request")),
       (sb "cmd", .mstr (sb "transport.seek")),
       (sb "id", .mint 1),
       (sb "payload", .mobj (objOfList [(sb "positionBars", .mint (-1))]))])
      (sb "type") = some (.mstr (sb "request")) := rfl
  have hc : getField (objOfList
      [(sb "type", .mstr (sb "request")),
       (sb "cmd", .mstr (sb "transport.seek")),
       (sb "id", .mint 1),
       (sb "payload", .mobj (objOfList [(sb "positionBars", .mint (-1))]))])
      (sb "cmd") = some (.mstr (sb "transport.seek")) := rfl
  have hp : getField (objOfList
      [(sb "type", .mstr (sb "request")),
       (sb "cmd", .mstr (sb "transport.seek")),
       (sb "id", .mint 1),
       (sb "payload", .mobj (objOfList [(sb "positionBars", .mint (-1))]))])
      (sb "payload") = some (.mobj (objOfList [(sb "positionBars", .mint (-1))])) := rfl
  have h1 : getField (objOfList [(sb "positionBars", .mint (-1))]) (sb "position_beats")
      = none := rfl
  have h2 : getField (objOfList [(sb "positionBars", .mint (-1))]) (sb "positionBeats")
      = none := rfl
  have h3 : getField (objOfList [(sb "positionBars", .mint (-1))]) (sb "position_bars")
      = none := rfl
  have h4 : asDouble (getField (objOfList [(sb "positionBars", .mint (-1))])
      (sb "positionBars")) (.fin 0) = .fin (-1) := rfl
  simp +decide only [handleRequest, ht, hc, hp, asString, asObject, if_true, if_false]
  rw [h4]
  simp only [h1, h2, h3, asDouble, Dbl.mul, TransportCore.seekToBeats, kBeatsPerBar]
  rw [show (-1 : ℚ) * 4 * 4 = -16 by norm_num, max_eq_left (by norm_num)]

/-- C10 (amended): on `transport.seek` with the local clock, a payload whose
only position key is `positionBars = b` drives `seekToBeats` with `16·b`
(the value is multiplied by beats-per-bar twice), so the stored position is
`max 0 (16·b)`; a payload whose only position key is `position_bars = b`
yields `max 0 (4·b)`. -/
theorem seek_positionBars_doubly_scaled (bd : List Nat → Option Obj → Int → MsgValue)
    (request p : Obj) (t : TransportCore) (now nowSys : Int) (b : ℚ)
    (ht : getField request (sb "type") = some (.mstr (sb "request")))
    (hc : getField request (sb "cmd") = some (.mstr (sb "transport.seek")))
    (hp : getField request (sb "payload") = some (.mobj p))
    (h1 : getField p (sb "position_beats") = none)
    (h2 : getField p (sb "positionBeats") = none)
    (h3 : getField p (sb "position_bars") = none)
    (h4 : asDouble (getField p (sb "positionBars")) (.fin 0) = .fin b) :
    (handleRequest bd request t now nowSys).2.offsetBeats = max 0 (16 * b)
    ∧ (∀ (request2 p2 : Obj) (fv : MsgValue) (b2 : ℚ),
        getField request2 (sb "type") = some (.mstr (sb "request")) →
        getField request2 (sb "cmd") = some (.mstr (sb "transport.seek")) →
        getField request2 (sb "payload") = some (.mobj p2) →
        getField p2 (sb "position_beats") = none →
        getField p2 (sb "positionBeats") = none →
        getField p2 (sb "position_bars") = some fv →
        (∀ fb, asDouble (some fv) fb = .fin b2) →
        (handleRequest bd request2 t now nowSys).2.offsetBeats = max 0 (4 * b2)) := by
  constructor
  · simp +decide only [handleRequest, ht, hc, hp, asString, asObject, if_true, if_false]
    rw [h4]
    simp only [h1, h2, h3, asDouble, Dbl.mul, TransportCore.seekToBeats, kBeatsPerBar]
    show max 0 (b * 4 * 4) = max 0 (16 * b)
    congr 1
    ring
  · intro request2 p2 fv b2 ht2 hc2 hp2 h1b h2b h3b hnum
    simp +decide only [handleRequest, ht2, hc2, hp2, asString, asObject, if_true, if_false]
    rw [h3b, hnum]
    simp only [h1b, h2b, asDouble, Dbl.mul, TransportCore.seekToBeats, kBeatsPerBar]
    show max 0 (b2 * 4) = max 0 (4 * b2)
    congr 1
    ring

/-- C10 witness: `positionBars = 2` stores position 32; `position_bars = 2`
stores position 8. -/
theorem seek_positionBars_doubly_scaled_witness :
    (handleRequest (fun _ _ i => makeErrorResponse i [])
      (objOfList
        [(sb "type", .mstr (sb "request")),
         (sb "cmd", .mstr (sb "transport.seek")),
         (sb "id", .mint 1),
         (sb "payload", .mobj (objOfList [(sb "positionBars", .mint 2)]))])
      {} 0 0).2.offsetBeats = max 0 (16 * (2 : ℚ))
    ∧ (handleRequest (fun _ _ i => makeErrorResponse i [])
      (objOfList
        [(sb "type", .mstr (sb "request")),
         (sb "cmd", .mstr (sb "transport.seek")),
         (sb "id", .mint 1),
         (sb "payload", .mobj (objOfList [(sb "position_bars", .mint 2)]))])
      {} 0 0).2.offsetBeats = max 0 (4 * (2 : ℚ)) := by
  have h := seek_positionBars_doubly_scaled (fun _ _ i => makeErrorResponse i [])
    (objOfList
      [(sb "type", .mstr (sb "request")),
       (sb "cmd", .mstr (sb "transport.seek")),
       (sb "id", .mint 1),
       (sb "payload", .mobj (objOfList [(sb "positionBars", .mint 2)]))])
    (objOfList [(sb "positionBars", .mint 2)]) {} 0 0 2
    rfl rfl rfl rfl rfl rfl rfl
  refine ⟨h.1, h.2
    (objOfList
      [(sb "type", .mstr (sb "request")),
       (sb "cmd", .mstr (sb "transport.seek")),
       (sb "id", .mint 1),
       (sb "payload", .mobj (objOfList [(sb "position_bars", .mint 2)]))])
    (objOfList [(sb "position_bars", .mint 2)]) (.mint 2) 2
    rfl rfl rfl rfl rfl rfl (fun fb => rfl)⟩

/-! ## Framing helpers -/

lemma beVal_be32 (v : Nat) : beVal (be32 v) = v % 2 ^ 32 := by
  simp only [beVal, be32, List.foldl]
  omega

lemma be32_length (v : Nat) : (be32 v).length = 4 := by
  simp [be32]

lemma frameBytes_append (body rest : List Nat) :
    frameBytes body ++ rest = be32 body.length ++ (body ++ rest) := by
  simp [frameBytes]

lemma frame_take4 (body rest : List Nat) :
    (frameBytes body ++ rest).take 4 = be32 body.length := by
  rw [frameBytes_append]
  exact List.take_left' (be32_length _)

lemma frame_length (body rest : List Nat) :
    (frameBytes body ++ rest).length = 4 + body.length + rest.length := by
  simp [frameBytes, be32]
  omega

lemma frame_body (body rest : List Nat) :
    ((frameBytes body ++ rest).drop 4).take body.length = body := by
  rw [frameBytes_append, List.drop_left' (be32_length _)]
  exact List.take_left body rest

lemma frame_rest (body rest : List Nat) :
    (frameBytes body ++ rest).drop (4 + body.length) = rest := by
  rw [← List.drop_drop, frameBytes_append, List.drop_left' (be32_length _)]
  exact List.drop_left body rest

lemma extractFrames_short (buffer : List Nat) (h : buffer.length < kFrameHeaderBytes) :
    extractFrames buffer = ([], buffer, true) := by
  rw [extractFrames, dif_neg (not_le.mpr h)]

lemma extractFrames_fatal (buffer : List Nat) (h4 : kFrameHeaderBytes ≤ buffer.length)
    (hsz : kMaxFrameSize < beVal (buffer.take 4)) :
    extractFrames buffer = ([], buffer, false) := by
  rw [extractFrames, dif_pos h4]
  simp only [if_pos hsz]

lemma extractFrames_wait (buffer : List Nat) (h4 : kFrameHeaderBytes ≤ buffer.length)
    (hsz : beVal (buffer.take 4) ≤ kMaxFrameSize)
    (hlt : buffer.length < kFrameHeaderBytes + beVal (buffer.take 4)) :
    extractFrames buffer = ([], buffer, true) := by
  rw [extractFrames, dif_pos h4]
  simp only [if_neg (not_lt.mpr hsz), if_pos hlt]

lemma extractFrames_step (buffer : List Nat) (h4 : kFrameHeaderBytes ≤ buffer.length)
    (hsz : beVal (buffer.take 4) ≤ kMaxFrameSize)
    (hge : ¬buffer.length < kFrameHeaderBytes + beVal (buffer.take 4)) :
    extractFrames buffer
      = ((buffer.drop 4).take (beVal (buffer.take 4))
           :: (extractFrames (buffer.drop (4 + beVal (buffer.take 4)))).1,
         (extractFrames (buffer.drop (4 + beVal (buffer.take 4)))).2) := by
  rw [extractFrames, dif_pos h4]
  simp only [if_neg (not_lt.mpr hsz), if_neg hge]

lemma extractFrames_frame (body rest : List Nat) (h : body.length ≤ kMaxFrameSize) :
    extractFrames (frameBytes body ++ rest)
      = (body :: (extractFrames rest).1, (extractFrames rest).2) := by
  have h32 : body.length < 2 ^ 32 := lt_of_le_of_lt h (by norm_num [kMaxFrameSize])
  have h4 : kFrameHeaderBytes ≤ (frameBytes body ++ rest).length := by
    rw [frame_length]
    simp only [kFrameHeaderBytes]
    omega
  have htake : beVal ((frameBytes body ++ rest).take 4) = body.length := by
    rw [frame_take4, beVal_be32, Nat.mod_eq_of_lt h32]
  rw [extractFrames_step _ h4 (htake ▸ h)
    (by rw [htake, frame_length]; simp only [kFrameHeaderBytes]; omega)]
  rw [htake, frame_body, frame_rest]

lemma extractFrames_ok_of_append (buffer c : List Nat)
    (h : (extractFrames (buffer ++ c)).2.2 = true) :
    (extractFrames buffer).2.2 = true := by
  induction buffer using extractFrames.induct with
  | case1 x h4 fs hsz =>
    exfalso
    have h4c : kFrameHeaderBytes ≤ (x ++ c).length := by
      simp only [List.length_append]
      omega
    have htake : (x ++ c).take 4 = x.take 4 :=
      List.take_append_of_le_length (by simp only [kFrameHeaderBytes] at h4; omega)
    rw [extractFrames_fatal _ h4c (by rw [htake]; exact hsz)] at h
    simp at h
  | case2 x h4 fs hsz hlt =>
    rw [extractFrames_wait x h4 (not_lt.mp hsz) hlt]
  | case3 x h4 fs hsz hge rst bs rem ok hE ih =>
    have htake : (x ++ c).take 4 = x.take 4 :=
      List.take_append_of_le_length (by simp only [kFrameHeaderBytes] at h4; omega)
    have h4c : kFrameHeaderBytes ≤ (x ++ c).length := by
      simp only [List.length_append]
      omega
    have hdropapp : (x ++ c).drop (4 + beVal (x.take 4))
        = x.drop (4 + beVal (x.take 4)) ++ c :=
      List.drop_append_of_le_length (by simp only [kFrameHeaderBytes] at h4 hge; omega)
    rw [extractFrames_step _ h4c (by rw [htake]; exact not_lt.mp hsz)
      (by rw [htake]; simp only [List.length_append]; omega)] at h
    rw [htake, hdropapp] at h
    have := ih h
    rw [extractFrames_step _ h4 (not_lt.mp hsz) hge]
    exact this
  | case4 x h4 =>
    rw [extractFrames_short _ (not_le.mp h4)]

lemma extractFrames_rem_stuck (buffer : List Nat)
    (h : (extractFrames buffer).2.2 = true) :
    extractFrames ((extractFrames buffer).2.1) = ([], (extractFrames buffer).2.1, true) := by
  induction buffer using extractFrames.induct with
  | case1 x h4 fs hsz =>
    rw [extractFrames_fatal x h4 hsz] at h ⊢
    simp at h
  | case2 x h4 fs hsz hlt =>
    rw [extractFrames_wait x h4 (not_lt.mp hsz) hlt] at h ⊢
    exact extractFrames_wait x h4 (not_lt.mp hsz) hlt
  | case3 x h4 fs hsz hge rst bs rem ok hE ih =>
    rw [extractFrames_step x h4 (not_lt.mp hsz) hge] at h ⊢
    exact ih h
  | case4 x h4 =>
    rw [extractFrames_short x (not_le.mp h4)] at h ⊢
    exact extractFrames_short x (not_le.mp h4)

lemma extractFrames_append (buffer c : List Nat)
    (h : (extractFrames buffer).2.2 = true) :
    extractFrames (buffer ++ c)
      = ((extractFrames buffer).1 ++ (extractFrames ((extractFrames buffer).2.1 ++ c)).1,
         (extractFrames ((extractFrames buffer).2.1 ++ c)).2) := by
  induction buffer using extractFrames.induct with
  | case1 x h4 fs hsz =>
    rw [extractFrames_fatal x h4 hsz] at h
    simp at h
  | case2 x h4 fs hsz hlt =>
    rw [extractFrames_wait x h4 (not_lt.mp hsz) hlt]
    simp
  | case3 x h4 fs hsz hge rst bs rem ok hE ih =>
    have htake : (x ++ c).take 4 = x.take 4 :=
      List.take_append_of_le_length (by simp only [kFrameHeaderBytes] at h4; omega)
    have h4c : kFrameHeaderBytes ≤ (x ++ c).length := by
      simp only [List.length_append]
      omega
    have hdropapp : (x ++ c).drop (4 + beVal (x.take 4))
        = x.drop (4 + beVal (x.take 4)) ++ c :=
      List.drop_append_of_le_length (by simp only [kFrameHeaderBytes] at h4 hge; omega)
    have hbody : ((x ++ c).drop 4).take (beVal (x.take 4))
        = (x.drop 4).take (beVal (x.take 4)) := by
      rw [List.drop_append_of_le_length (by simp only [kFrameHeaderBytes] at h4; omega)]
      exact List.take_append_of_le_length (by
        simp only [List.length_drop]
        simp only [kFrameHeaderBytes] at h4 hge
        omega)
    rw [extractFrames_step x h4 (not_lt.mp hsz) hge] at h
    rw [extractFrames_step _ h4c (by rw [htake]; exact not_lt.mp hsz)
      (by rw [htake]; simp only [List.length_append]; omega)]
    rw [htake, hdropapp, hbody]
    rw [extractFrames_step x h4 (not_lt.mp hsz) hge]
    rw [ih h]
    simp
  | case4 x h4 =>
    rw [extractFrames_short x (not_le.mp h4)]
    simp

lemma extractFrames_nil : extractFrames [] = ([], [], true) :=
  extractFrames_short [] (by simp [kFrameHeaderBytes])


lemma feedAll_extract : ∀ (chunks : List (List Nat)) (st : List Nat),
    extractFrames st = ([], st, true) →
    (extractFrames (st ++ chunks.flatten)).2.2 = true →
    feedAll st chunks
      = ((extractFrames (st ++ chunks.flatten)).1, (extractFrames (st ++ chunks.flatten)).2.1) := by
  intro chunks
  induction chunks with
  | nil =>
    intro st hst hok
    simp only [List.flatten_nil, List.append_nil]
    rw [feedAll, hst]
  | cons c cs ih =>
    intro st hst hok
    have hassoc : st ++ (c :: cs).flatten = st ++ c ++ cs.flatten := by
      simp [List.append_assoc]
    rw [hassoc] at hok
    have hokc : (extractFrames (st ++ c)).2.2 = true :=
      extractFrames_ok_of_append _ _ hok
    have hstuck := extractFrames_rem_stuck (st ++ c) hokc
    have happ := extractFrames_append (st ++ c) cs.flatten hokc
    rcases hE : extractFrames (st ++ c) with ⟨bs, st1, ok1⟩
    rw [hE] at happ hstuck
    simp only at happ hstuck
    have hok2 : (extractFrames (st1 ++ cs.flatten)).2.2 = true := by
      rw [happ] at hok
      exact hok
    have ihx := ih st1 hstuck hok2
    rw [feedAll, hE]
    simp only
    rw [ihx, hassoc, happ]

/-- C3: feeding the framing layer the bytes of two concatenated valid frames
split arbitrarily across `feed()` calls (including inside the 4-byte header)
yields exactly the two original bodies, in order; and whenever fewer bytes
than one header, or one header plus its declared body, are available, the
layer consumes nothing and waits. -/
theorem frame_reassembly (b1 b2 : List Nat) (chunks : List (List Nat))
    (h1 : b1.length ≤ kMaxFrameSize) (h2 : b2.length ≤ kMaxFrameSize)
    (hj : chunks.flatten = frameBytes b1 ++ frameBytes b2) :
    feedAll [] chunks = ([b1, b2], [])
    ∧ (∀ buffer : List Nat, buffer.length < kFrameHeaderBytes →
        extractFrames buffer = ([], buffer, true))
    ∧ (∀ buffer : List Nat, kFrameHeaderBytes ≤ buffer.length →
        beVal (buffer.take 4) ≤ kMaxFrameSize →
        buffer.length < kFrameHeaderBytes + beVal (buffer.take 4) →
        extractFrames buffer = ([], buffer, true)) := by
  refine ⟨?_, extractFrames_short, extractFrames_wait⟩
  have hb2 : extractFrames (frameBytes b2) = ([b2], [], true) := by
    have := extractFrames_frame b2 [] h2
    rw [List.append_nil] at this
    rw [this, extractFrames_nil]
  have hstream : extractFrames (frameBytes b1 ++ frameBytes b2) = ([b1, b2], [], true) := by
    rw [extractFrames_frame b1 (frameBytes b2) h1, hb2]
  have := feedAll_extract chunks [] extractFrames_nil
    (by rw [List.nil_append, hj, hstream])
  rw [List.nil_append, hj, hstream] at this
  exact this

/-- C3 witness: the frames `[0xC0]` and `[0xC2]` split into three chunks,
with one chunk boundary inside the first frame's header. -/
theorem frame_reassembly_witness :
    feedAll [] [[0, 0], [0, 1, 0xC0, 0], [0, 0, 1, 0xC2]] = ([[0xC0], [0xC2]], []) :=
  (frame_reassembly [0xC0] [0xC2] [[0, 0], [0, 1, 0xC0, 0], [0, 0, 1, 0xC2]]
    (by norm_num [kMaxFrameSize]) (by norm_num [kMaxFrameSize]) (by decide)).1

/-- C4: a frame header declaring a length above `kMaxFrameSize` makes the
loop send exactly one error response with id 0 and report the connection as
closed, leaving the buffer (header and whatever follows it) untouched — the
body is never read or decoded, so the result does not depend on the bytes
after the header. -/
theorem oversized_frame_fatal (bd : List Nat → Option Obj → Int → MsgValue)
    (s : Nat) (rest : List Nat) (t : TransportCore) (now nowSys : Int)
    (hmax : kMaxFrameSize < s) (h32 : s < 2 ^ 32) :
    processIncomingBuffer bd (be32 s ++ rest) t now nowSys
      = { sent := [makeErrorResponse 0 (sb "frame too large")],
          buffer := be32 s ++ rest, keepOpen := false, transport := t } := by
  have h4 : kFrameHeaderBytes ≤ (be32 s ++ rest).length := by
    simp [kFrameHeaderBytes, be32]
  have htake : (be32 s ++ rest).take 4 = be32 s := List.take_left' (be32_length _)
  rw [processIncomingBuffer, dif_pos h4]
  simp only [htake, beVal_be32, Nat.mod_eq_of_lt h32]
  rw [if_pos hmax]

/-- C4 witness: a header declaring 1,048,577 bytes followed by nothing. -/
theorem oversized_frame_fatal_witness :
    processIncomingBuffer (fun _ _ i => makeErrorResponse i [])
      (be32 (kMaxFrameSize + 1) ++ []) {} 0 0
      = { sent := [makeErrorResponse 0 (sb "frame too large")],
          buffer := be32 (kMaxFrameSize + 1) ++ [], keepOpen := false, transport := {} } :=
  oversized_frame_fatal (fun _ _ i => makeErrorResponse i []) (kMaxFrameSize + 1) [] {} 0 0
    (by norm_num [kMaxFrameSize]) (by norm_num [kMaxFrameSize])

/-- C5: a complete, size-conforming frame whose body fails to decode —
thrown decode error or leftover bytes after the top-level value — yields one
error response for that frame, after which processing continues with the
rest of the buffer exactly as if the bad frame had not been there; the
connection stays open. -/
theorem decode_failure_per_frame_error (bd : List Nat → Option Obj → Int → MsgValue)
    (body rest : List Nat) (t : TransportCore) (now nowSys : Int)
    (hlen : body.length ≤ kMaxFrameSize)
    (hfail : (∃ e, decodeFrame body = .error e)
      ∨ ∃ v l, decodeFrame body = .ok (v, l) ∧ l ≠ []) :
    (∃ msg, processIncomingBuffer bd (frameBytes body ++ rest) t now nowSys
      = { sent := makeErrorResponse 0 msg
            :: (processIncomingBuffer bd rest t now nowSys).sent,
          buffer := (processIncomingBuffer bd rest t now nowSys).buffer,
          keepOpen := (processIncomingBuffer bd rest t now nowSys).keepOpen,
          transport := (processIncomingBuffer bd rest t now nowSys).transport })
    ∧ (processIncomingBuffer bd (frameBytes body) t now nowSys).keepOpen = true := by
  have key : ∀ r : List Nat, ∃ msg,
      processIncomingBuffer bd (frameBytes body ++ r) t now nowSys
        = { sent := makeErrorResponse 0 msg
              :: (processIncomingBuffer bd r t now nowSys).sent,
            buffer := (processIncomingBuffer bd r t now nowSys).buffer,
            keepOpen := (processIncomingBuffer bd r t now nowSys).keepOpen,
            transport := (processIncomingBuffer bd r t now nowSys).transport } := by
    intro r
    have h4 : kFrameHeaderBytes ≤ (frameBytes body ++ r).length := by
      rw [frame_length]
      simp only [kFrameHeaderBytes]
      omega
    have h32 : body.length < 2 ^ 32 := lt_of_le_of_lt hlen (by norm_num [kMaxFrameSize])
    rw [processIncomingBuffer, dif_pos h4]
    simp only [frame_take4, beVal_be32, Nat.mod_eq_of_lt h32]
    rw [if_neg (not_lt.mpr hlen)]
    rw [if_neg (by rw [frame_length, kFrameHeaderBytes]; omega)]
    rw [frame_body, frame_rest]
    rcases hfail with ⟨e, he⟩ | ⟨v, l, hok, hne⟩
    · rw [he]
      exact ⟨_, rfl⟩
    · rw [hok]
      simp only [if_pos hne]
      exact ⟨_, rfl⟩
  refine ⟨key rest, ?_⟩
  obtain ⟨msg, hm⟩ := key []
  rw [List.append_nil] at hm
  rw [hm]
  rw [processIncomingBuffer]
  rw [dif_neg (by simp [kFrameHeaderBytes])]

/-- C5 witness: the body `[0xC1]` (an unsupported marker) followed by no
further frames: one decode-error response, connection open. -/
theorem decode_failure_per_frame_error_witness :
    ((processIncomingBuffer (fun _ _ i => makeErrorResponse i [])
        (frameBytes [0xC1] ++ []) {} 0 0).sent.length = 1
      ∧ (processIncomingBuffer (fun _ _ i => makeErrorResponse i [])
        (frameBytes [0xC1]) {} 0 0).keepOpen = true) := by
  have h := decode_failure_per_frame_error (fun _ _ i => makeErrorResponse i [])
    [0xC1] [] {} 0 0 (by norm_num [kMaxFrameSize])
    (Or.inl ⟨.unsupportedTag, rfl⟩)
  obtain ⟨⟨msg, hm⟩, hopen⟩ := h
  refine ⟨?_, hopen⟩
  rw [hm]
  have : (processIncomingBuffer (fun _ _ i => makeErrorResponse i []) [] {} 0 0).sent = [] := by
    rw [processIncomingBuffer, dif_neg (by simp [kFrameHeaderBytes])]
  simp [this]

/-! ## Codec round-trip: order, well-formedness and length lemmas -/

lemma keyLtB_trans : ∀ {a b c : List Nat},
    keyLtB a b = true → keyLtB b c = true → keyLtB a c = true
  | [], [] , _, hab, _ => by simp [keyLtB] at hab
  | [], _ :: _, [], _, hbc => by simp [keyLtB] at hbc
  | [], _ :: _, _ :: _, _, _ => by simp [keyLtB]
  | _ :: _, [], _, hab, _ => by simp [keyLtB] at hab
  | _ :: _, _ :: _, [], _, hbc => by simp [keyLtB] at hbc
  | x :: xs, y :: ys, z :: zs, hab, hbc => by
    simp only [keyLtB] at hab hbc ⊢
    by_cases hxy : x < y
    · by_cases hyz : y < z
      · rw [if_pos (by omega)]
      · by_cases hzy : z < y
        · rw [if_neg hyz, if_pos hzy] at hbc
          exact absurd hbc (by simp)
        · rw [if_pos (by omega)]
    · rw [if_neg hxy] at hab
      by_cases hyx : y < x
      · rw [if_pos hyx] at hab
        exact absurd hab (by simp)
      · rw [if_neg hyx] at hab
        by_cases hyz : y < z
        · rw [if_pos (by omega)]
        · by_cases hzy : z < y
          · rw [if_neg hyz, if_pos hzy] at hbc
            exact absurd hbc (by simp)
          · rw [if_neg hyz, if_neg hzy] at hbc
            rw [if_neg (by omega), if_neg (by omega)]
            exact keyLtB_trans hab hbc

lemma keyLtB_asymm : ∀ {a b : List Nat}, keyLtB a b = true → keyLtB b a = false
  | [], [], hab => by simp [keyLtB] at hab
  | [], _ :: _, _ => by simp [keyLtB]
  | _ :: _, [], hab => by simp [keyLtB] at hab
  | x :: xs, y :: ys, hab => by
    simp only [keyLtB] at hab ⊢
    by_cases hxy : x < y
    · rw [if_neg (by omega), if_pos (by omega)]
    · rw [if_neg hxy] at hab
      by_cases hyx : y < x
      · rw [if_pos hyx] at hab
        exact absurd hab (by simp)
      · rw [if_neg hyx] at hab
        rw [if_neg (by omega), if_neg (by omega)]
        exact keyLtB_asymm hab

lemma objInsert_append (k : List Nat) (v : MsgValue) :
    ∀ acc : Obj, (∀ p ∈ acc, keyLtB p.1 k = true) →
      objInsert acc k v = acc ++ [(k, v)]
  | [], _ => rfl
  | (k2, v2) :: rest, h => by
    have hk2 := h (k2, v2) (by simp)
    simp only [objInsert]
    rw [if_neg (by simp [keyLtB_asymm hk2]), if_pos hk2]
    rw [objInsert_append k v rest (fun p hp => h p (by simp [hp]))]
    simp

lemma sortedPairs_tail : ∀ {a : List Nat × MsgValue} {r : Obj},
    sortedPairs (a :: r) = true → sortedPairs r = true := by
  intro a r h
  match r with
  | [] => rfl
  | b :: r2 =>
    rw [sortedPairs] at h
    exact (Bool.and_eq_true_iff.mp h).2

lemma sortedPairs_head_lt : ∀ {a : List Nat × MsgValue} {r : Obj},
    sortedPairs (a :: r) = true → ∀ kv ∈ r, keyLtB a.1 kv.1 = true := by
  intro a r
  induction r generalizing a with
  | nil => intro _ kv hkv; simp at hkv
  | cons b r2 ih =>
    intro h kv hkv
    rw [sortedPairs] at h
    obtain ⟨hab, hbr⟩ := Bool.and_eq_true_iff.mp h
    rcases List.mem_cons.mp hkv with rfl | hkv2
    · exact hab
    · exact keyLtB_trans hab (ih hbr kv hkv2)

lemma wfList_mem {xs : List MsgValue} (h : wfList xs = true) :
    ∀ x ∈ xs, wfValue x = true := by
  induction xs with
  | nil => intro x hx; simp at hx
  | cons y ys ih =>
    intro x hx
    rw [wfList] at h
    obtain ⟨hy, hys⟩ := Bool.and_eq_true_iff.mp h
    rcases List.mem_cons.mp hx with rfl | hx2
    · exact hy
    · exact ih hys x hx2

lemma wfPairs_mem {kvs : Obj} (h : wfPairs kvs = true) :
    ∀ kv ∈ kvs, wfStr kv.1 = true ∧ wfValue kv.2 = true := by
  induction kvs with
  | nil => intro kv hkv; simp at hkv
  | cons b r ih =>
    intro kv hkv
    obtain ⟨k2, v2⟩ := b
    rw [wfPairs] at h
    obtain ⟨hkv2, hr⟩ := Bool.and_eq_true_iff.mp h
    obtain ⟨hk2, hv2⟩ := Bool.and_eq_true_iff.mp hkv2
    rcases List.mem_cons.mp hkv with rfl | hx2
    · exact ⟨hk2, hv2⟩
    · exact ih hr kv hx2

lemma encodeInt_length_pos (n : Int) : 1 ≤ (encodeInt n).length := by
  simp only [encodeInt]
  split_ifs <;> simp [be16, be32, be64]

lemma encodeString_length_pos (s : List Nat) : 1 ≤ (encodeString s).length := by
  rw [encodeString]
  split_ifs <;> simp [be16, be32]

lemma encodeValue_length_pos (v : MsgValue) : 1 ≤ (encodeValue v).length := by
  match v with
  | .mnil => simp [encodeValue]
  | .mbool b => simp [encodeValue]
  | .mint n => rw [encodeValue]; exact encodeInt_length_pos n
  | .mfloat bits => simp [encodeValue]
  | .mstr s => rw [encodeValue]; exact encodeString_length_pos s
  | .marr xs => rw [encodeValue]; split_ifs <;> simp [be16, be32]
  | .mobj kvs => rw [encodeValue]; split_ifs <;> simp [be16, be32]

lemma encodeList_mem_le {xs : List MsgValue} {x : MsgValue} (hx : x ∈ xs) :
    (encodeValue x).length ≤ (encodeList xs).length := by
  induction xs with
  | nil => simp at hx
  | cons y ys ih =>
    rw [encodeList]
    rcases List.mem_cons.mp hx with rfl | hx2
    · simp
    · have := ih hx2
      simp only [List.length_append]
      omega

lemma encodePairs_mem_le {kvs : Obj} {kv : List Nat × MsgValue} (hkv : kv ∈ kvs) :
    (encodeString kv.1).length ≤ (encodePairs kvs).length
    ∧ (encodeValue kv.2).length ≤ (encodePairs kvs).length := by
  induction kvs with
  | nil => simp at hkv
  | cons b r ih =>
    obtain ⟨k2, v2⟩ := b
    rw [encodePairs]
    rcases List.mem_cons.mp hkv with rfl | hx2
    · constructor <;> (simp only [List.length_append]; omega)
    · have := ih hx2
      constructor <;> (simp only [List.length_append]; omega)

/-! ## Codec round-trip: reader lemmas -/

lemma except_bind_ok {ε α β : Type} (a : α) (f : α → Except ε β) :
    (Except.ok a : Except ε α) >>= f = f a := rfl

lemma takeN_append : ∀ (s t : List Nat), takeN s.length (s ++ t) = .ok (s, t)
  | [], _ => rfl
  | b :: s, t => by
    simp only [List.length_cons, List.cons_append, takeN, List.append_eq]
    rw [takeN_append s t]
    rfl

lemma beVal_be16 (v : Nat) : beVal (be16 v) = v % 2 ^ 16 := by
  simp only [beVal, be16, List.foldl]
  omega

lemma beVal_be64 (v : Nat) : beVal (be64 v) = v % 2 ^ 64 := by
  simp only [beVal, be64, List.foldl]
  omega

lemma readBE_exact : ∀ (bs t : List Nat), readBE bs.length (bs ++ t) = .ok (beVal bs, t) := by
  intro bs t
  rw [readBE, takeN_append]
  rfl

lemma readBE_one (b : Nat) (t : List Nat) : readBE 1 (b :: t) = .ok (b, t) := by
  have h := readBE_exact [b] t
  simpa [beVal] using h

lemma readBE_be16 (v : Nat) (t : List Nat) :
    readBE 2 (be16 v ++ t) = .ok (v % 2 ^ 16, t) := by
  have h := readBE_exact (be16 v) t
  rw [beVal_be16] at h
  exact h

lemma readBE_be32 (v : Nat) (t : List Nat) :
    readBE 4 (be32 v ++ t) = .ok (v % 2 ^ 32, t) := by
  have h := readBE_exact (be32 v) t
  rw [beVal_be32] at h
  exact h

lemma readBE_be64 (v : Nat) (t : List Nat) :
    readBE 8 (be64 v ++ t) = .ok (v % 2 ^ 64, t) := by
  have h := readBE_exact (be64 v) t
  rw [beVal_be64] at h
  exact h

/-- Decoding inverts `encodeInt` on the whole `int64_t` range, consuming
exactly the encoded bytes. -/
lemma readValue_encodeInt (fuel : Nat) (n : Int) (t : List Nat)
    (hlo : -(2 ^ 63) ≤ n) (hhi : n < 2 ^ 63) :
    readValue (fuel + 1) (encodeInt n ++ t) = .ok (.mint n, t) := by
  rw [encodeInt]
  by_cases hp : 0 ≤ n
  · rw [if_pos hp]
    simp only
    by_cases h1 : n.toNat ≤ 0x7F
    · rw [if_pos h1, List.singleton_append]
      simp only [readValue]
      rw [if_pos h1]
      simp only [Except.ok.injEq, MsgValue.mint.injEq, Prod.mk.injEq, and_true]
      omega
    · rw [if_neg h1]
      by_cases h2 : n.toNat ≤ 0xFF
      · rw [if_pos h2]
        simp only [List.cons_append, List.nil_append, readValue]
        simp +decide only [if_true, if_false, List.append_eq, List.singleton_append]
        rw [readBE_one, except_bind_ok]
        simp only [Except.ok.injEq, MsgValue.mint.injEq, Prod.mk.injEq, and_true]
        omega
      · rw [if_neg h2]
        by_cases h3 : n.toNat ≤ 0xFFFF
        · rw [if_pos h3]
          simp only [List.cons_append, readValue]
          simp +decide only [if_true, if_false, List.append_eq, List.singleton_append]
          rw [readBE_be16, except_bind_ok]
          simp only [Except.ok.injEq, MsgValue.mint.injEq, Prod.mk.injEq, and_true]
          omega
        · rw [if_neg h3]
          by_cases h4 : n.toNat ≤ 0xFFFFFFFF
          · rw [if_pos h4]
            simp only [List.cons_append, readValue]
            simp +decide only [if_true, if_false, List.append_eq, List.singleton_append]
            rw [readBE_be32, except_bind_ok]
            simp only [Except.ok.injEq, MsgValue.mint.injEq, Prod.mk.injEq, and_true]
            omega
          · rw [if_neg h4]
            simp only [List.cons_append, readValue]
            simp +decide only [if_true, if_false, List.append_eq, List.singleton_append]
            rw [readBE_be64, except_bind_ok]
            simp only
            rw [if_pos (by omega)]
            simp only [Except.ok.injEq, MsgValue.mint.injEq, Prod.mk.injEq, and_true]
            omega
  · rw [if_neg hp]
    by_cases h1 : -32 ≤ n
    · rw [if_pos h1, List.singleton_append]
      simp only [readValue]
      rw [if_neg (by omega), if_pos (by omega)]
      simp only [Except.ok.injEq, MsgValue.mint.injEq, Prod.mk.injEq, and_true]
      omega
    · rw [if_neg h1]
      by_cases h2 : -128 ≤ n
      · rw [if_pos h2]
        simp only [List.cons_append, List.nil_append, readValue]
        simp +decide only [if_true, if_false, List.append_eq, List.singleton_append]
        rw [readBE_one, except_bind_ok]
        simp only [sext, Except.ok.injEq, MsgValue.mint.injEq, Prod.mk.injEq, and_true]
        rw [if_neg (by omega)]
        omega
      · rw [if_neg h2]
        by_cases h3 : -32768 ≤ n
        · rw [if_pos h3]
          simp only [List.cons_append, readValue]
          simp +decide only [if_true, if_false, List.append_eq, List.singleton_append]
          rw [readBE_be16, except_bind_ok]
          simp only [sext, Except.ok.injEq, MsgValue.mint.injEq, Prod.mk.injEq, and_true]
          rw [if_neg (by omega)]
          omega
        · rw [if_neg h3]
          by_cases h4 : -(2 ^ 31) ≤ n
          · rw [if_pos h4]
            simp only [List.cons_append, readValue]
            simp +decide only [if_true, if_false, List.append_eq, List.singleton_append]
            rw [readBE_be32, except_bind_ok]
            simp only [sext, Except.ok.injEq, MsgValue.mint.injEq, Prod.mk.injEq, and_true]
            rw [if_neg (by omega)]
            omega
          · rw [if_neg h4]
            simp only [List.cons_append, readValue]
            simp +decide only [if_true, if_false, List.append_eq, List.singleton_append]
            rw [readBE_be64, except_bind_ok]
            simp only [sext, Except.ok.injEq, MsgValue.mint.injEq, Prod.mk.injEq, and_true]
            rw [if_neg (by omega)]
            omega

/-- Decoding inverts `encodeString` on well-formed strings, consuming
exactly the encoded bytes. -/
lemma readValue_encodeString (fuel : Nat) (s t : List Nat) (hs : wfStr s = true) :
    readValue (fuel + 1) (encodeString s ++ t) = .ok (.mstr s, t) := by
  have hlen : s.length < 2 ^ 32 := by
    simp only [wfStr, Bool.and_eq_true_iff, decide_eq_true_eq] at hs
    exact hs.1
  rw [encodeString]
  by_cases h1 : s.length ≤ 31
  · rw [if_pos h1, List.append_assoc, List.singleton_append]
    simp only [readValue]
    rw [if_neg (by omega), if_neg (by omega), if_neg (by omega), if_neg (by omega),
      if_pos (by omega)]
    rw [show (0xA0 + s.length) % 32 = s.length by omega, takeN_append, except_bind_ok]
  · rw [if_neg h1]
    by_cases h2 : s.length ≤ 0xFF
    · rw [if_pos h2, List.append_assoc, List.cons_append, List.singleton_append]
      simp only [readValue]
      simp +decide only [if_true, if_false, List.append_eq, List.singleton_append]
      rw [readBE_one, except_bind_ok]
      simp only
      rw [takeN_append, except_bind_ok]
    · rw [if_neg h2]
      by_cases h3 : s.length ≤ 0xFFFF
      · rw [if_pos h3, List.append_assoc, List.cons_append]
        simp only [readValue]
        simp +decide only [if_true, if_false, List.append_eq, List.singleton_append]
        rw [readBE_be16, except_bind_ok]
        simp only
        rw [show s.length % 2 ^ 16 = s.length from Nat.mod_eq_of_lt (by omega)]
        rw [takeN_append, except_bind_ok]
      · rw [if_neg h3, List.append_assoc, List.cons_append]
        simp only [readValue]
        simp +decide only [if_true, if_false, List.append_eq, List.singleton_append]
        rw [readBE_be32, except_bind_ok]
        simp only
        rw [show s.length % 2 ^ 32 = s.length from Nat.mod_eq_of_lt hlen]
        rw [takeN_append, except_bind_ok]

lemma readList_encodeList (rv : List Nat → Except DErr (MsgValue × List Nat)) :
    ∀ (xs : List MsgValue) (t : List Nat),
      (∀ x ∈ xs, ∀ t2, rv (encodeValue x ++ t2) = .ok (x, t2)) →
      readList rv xs.length (encodeList xs ++ t) = .ok (xs, t)
  | [], t, _ => rfl
  | x :: xs, t, H => by
    simp only [encodeList, List.length_cons, List.append_assoc, readList]
    rw [H x (by simp) (encodeList xs ++ t)]
    simp only [except_bind_ok]
    rw [readList_encodeList rv xs t (fun y hy t2 => H y (by simp [hy]) t2)]
    simp only [except_bind_ok]

lemma readPairs_encodePairs (rv : List Nat → Except DErr (MsgValue × List Nat)) :
    ∀ (kvs acc : Obj) (t : List Nat),
      (∀ kv ∈ kvs, ∀ t2, rv (encodeString kv.1 ++ t2) = .ok (.mstr kv.1, t2)) →
      (∀ kv ∈ kvs, ∀ t2, rv (encodeValue kv.2 ++ t2) = .ok (kv.2, t2)) →
      (∀ kv ∈ kvs, ∀ p ∈ acc, keyLtB p.1 kv.1 = true) →
      sortedPairs kvs = true →
      readPairs rv kvs.length (encodePairs kvs ++ t) acc = .ok (acc ++ kvs, t)
  | [], acc, t, _, _, _, _ => by simp [readPairs, encodePairs]
  | (k, v) :: kvs, acc, t, Hk, Hv, Hacc, Hsort => by
    have hside : ∀ kv ∈ kvs, ∀ p ∈ acc ++ [(k, v)], keyLtB p.1 kv.1 = true := by
      intro kv hkv p hp
      rcases List.mem_append.mp hp with hpacc | hpkv
      · exact Hacc kv (by simp [hkv]) p hpacc
      · have : p = (k, v) := by simpa using hpkv
        subst this
        exact sortedPairs_head_lt Hsort kv hkv
    simp only [encodePairs, List.length_cons, List.append_assoc, readPairs]
    rw [Hk (k, v) (by simp) (encodeValue v ++ (encodePairs kvs ++ t))]
    simp only [except_bind_ok]
    rw [Hv (k, v) (by simp) (encodePairs kvs ++ t)]
    simp only [except_bind_ok]
    rw [objInsert_append k v acc (fun p hp => Hacc (k, v) (by simp) p hp)]
    rw [readPairs_encodePairs rv kvs (acc ++ [(k, v)]) t
      (fun kv hkv t2 => Hk kv (by simp [hkv]) t2)
      (fun kv hkv t2 => Hv kv (by simp [hkv]) t2)
      hside (sortedPairs_tail Hsort)]
    simp

lemma encodeList_length_lt_arr (xs : List MsgValue) :
    (encodeList xs).length < (encodeValue (.marr xs)).length := by
  simp only [encodeValue]
  split_ifs <;> simp [be16, be32] <;> omega

lemma encodePairs_length_lt_obj (kvs : Obj) :
    (encodePairs kvs).length < (encodeValue (.mobj kvs)).length := by
  simp only [encodeValue]
  split_ifs <;> simp [be16, be32] <;> omega

/-- The decoder inverts the encoder on every representable value, consuming
exactly the encoded bytes, given fuel exceeding the encoding's length. -/
lemma readValue_encodeValue : ∀ (fuel : Nat) (v : MsgValue) (t : List Nat),
    wfValue v = true → (encodeValue v).length < fuel →
    readValue fuel (encodeValue v ++ t) = .ok (v, t) := by
  intro fuel
  induction fuel using Nat.strong_induction_on with
  | _ fuel IH =>
    intro v t hwf hlen
    obtain ⟨f, rfl⟩ : ∃ f, fuel = f + 1 :=
      ⟨fuel - 1, by have := encodeValue_length_pos v; omega⟩
    match v with
    | .mnil =>
      simp only [encodeValue, List.singleton_append]
      simp +decide only [readValue, if_true, if_false]
    | .mbool b =>
      cases b <;>
        (simp only [encodeValue, List.singleton_append]
         simp +decide only [readValue, if_true, if_false])
    | .mint n =>
      simp only [wfValue, Bool.and_eq_true_iff, decide_eq_true_eq] at hwf
      simp only [encodeValue]
      exact readValue_encodeInt f n t hwf.1 hwf.2
    | .mfloat bits =>
      simp only [wfValue, decide_eq_true_eq] at hwf
      simp only [encodeValue, List.cons_append]
      simp +decide only [readValue, if_true, if_false]
      rw [readBE_be64, except_bind_ok]
      simp only [Nat.mod_eq_of_lt hwf]
    | .mstr str =>
      simp only [encodeValue]
      exact readValue_encodeString f str t hwf
    | .marr xs =>
      simp only [wfValue, Bool.and_eq_true_iff, decide_eq_true_eq] at hwf
      obtain ⟨hlen32, hwfl⟩ := hwf
      have harr := encodeList_length_lt_arr xs
      have Helem : ∀ x ∈ xs, ∀ t2, readValue f (encodeValue x ++ t2) = .ok (x, t2) := by
        intro x hx t2
        have h1 := encodeList_mem_le hx
        exact IH f (by omega) x t2 (wfList_mem hwfl x hx) (by omega)
      simp only [encodeValue] at hlen ⊢
      by_cases hl15 : xs.length ≤ 15
      · rw [if_pos hl15, List.append_assoc, List.singleton_append]
        simp only [readValue]
        rw [if_neg (by omega), if_neg (by omega), if_neg (by omega), if_pos (by omega)]
        rw [show (0x90 + xs.length) % 16 = xs.length by omega]
        rw [readList_encodeList (readValue f) xs t Helem]
        simp only [except_bind_ok]
      · rw [if_neg hl15]
        by_cases hl16 : xs.length ≤ 0xFFFF
        · rw [if_pos hl16, List.append_assoc, List.cons_append]
          simp only [readValue]
          simp +decide only [if_true, if_false, List.append_eq, List.singleton_append]
          rw [readBE_be16, except_bind_ok]
          simp only
          rw [show xs.length % 2 ^ 16 = xs.length from Nat.mod_eq_of_lt (by omega)]
          rw [readList_encodeList (readValue f) xs t Helem]
          simp only [except_bind_ok]
        · rw [if_neg hl16, List.append_assoc, List.cons_append]
          simp only [readValue]
          simp +decide only [if_true, if_false, List.append_eq, List.singleton_append]
          rw [readBE_be32, except_bind_ok]
          simp only
          rw [show xs.length % 2 ^ 32 = xs.length from Nat.mod_eq_of_lt hlen32]
          rw [readList_encodeList (readValue f) xs t Helem]
          simp only [except_bind_ok]
    | .mobj kvs =>
      simp only [wfValue, Bool.and_eq_true_iff, decide_eq_true_eq] at hwf
      obtain ⟨⟨hlen32, hwfp⟩, hsort⟩ := hwf
      have hobj := encodePairs_length_lt_obj kvs
      have Hval : ∀ kv ∈ kvs, ∀ t2, readValue f (encodeValue kv.2 ++ t2) = .ok (kv.2, t2) := by
        intro kv hkv t2
        have h1 := (encodePairs_mem_le hkv).2
        exact IH f (by omega) kv.2 t2 (wfPairs_mem hwfp kv hkv).2 (by omega)
      match kvs, hsort, hwfp, hlen32, hobj, Hval with
      | [], _, _, _, _, _ =>
        simp only [encodeValue, encodePairs, List.length_nil, List.append_nil,
          List.singleton_append]
        simp +decide only [readValue, readPairs, if_true, if_false]
        simp only [except_bind_ok, List.append_eq, List.nil_append]
      | (k0, v0) :: kvs2, hsort, hwfp, hlen32, hobj, Hval =>
        obtain ⟨f2, rfl⟩ : ∃ f2, f = f2 + 1 := by
          refine ⟨f - 1, ?_⟩
          have h1 := (encodePairs_mem_le (List.mem_cons_self (k0, v0) kvs2)).1
          have h2 := encodeString_length_pos k0
          omega
        have Hkey : ∀ kv ∈ (k0, v0) :: kvs2, ∀ t2,
            readValue (f2 + 1) (encodeString kv.1 ++ t2) = .ok (.mstr kv.1, t2) := by
          intro kv hkv t2
          exact readValue_encodeString f2 kv.1 t2 (wfPairs_mem hwfp kv hkv).1
        simp only [encodeValue] at hlen ⊢
        by_cases hl15 : ((k0, v0) :: kvs2).length ≤ 15
        · rw [if_pos hl15, List.append_assoc, List.singleton_append]
          simp only [readValue]
          rw [if_neg (by simp only [List.length_cons] at hl15 ⊢; omega),
            if_neg (by simp only [List.length_cons] at hl15 ⊢; omega),
            if_pos (by simp only [List.length_cons] at hl15 ⊢; omega)]
          rw [show (0x80 + ((k0, v0) :: kvs2).length) % 16 = ((k0, v0) :: kvs2).length by
            simp only [List.length_cons] at hl15 ⊢; omega]
          rw [readPairs_encodePairs (readValue (f2 + 1)) ((k0, v0) :: kvs2) [] t Hkey Hval
            (by intro kv _ p hp; simp at hp) hsort]
          simp only [List.nil_append, except_bind_ok]
        · rw [if_neg hl15]
          by_cases hl16 : ((k0, v0) :: kvs2).length ≤ 0xFFFF
          · rw [if_pos hl16, List.append_assoc, List.cons_append]
            simp only [readValue]
            simp +decide only [if_true, if_false, List.append_eq, List.singleton_append]
            rw [readBE_be16, except_bind_ok]
            simp only
            rw [show ((k0, v0) :: kvs2).length % 2 ^ 16 = ((k0, v0) :: kvs2).length from
              Nat.mod_eq_of_lt (by omega)]
            rw [readPairs_encodePairs (readValue (f2 + 1)) ((k0, v0) :: kvs2) [] t Hkey Hval
              (by intro kv _ p hp; simp at hp) hsort]
            simp only [List.nil_append, except_bind_ok]
          · rw [if_neg hl16, List.append_assoc, List.cons_append]
            simp only [readValue]
            simp +decide only [if_true, if_false, List.append_eq, List.singleton_append]
            rw [readBE_be32, except_bind_ok]
            simp only
            rw [show ((k0, v0) :: kvs2).length % 2 ^ 32 = ((k0, v0) :: kvs2).length from
              Nat.mod_eq_of_lt hlen32]
            rw [readPairs_encodePairs (readValue (f2 + 1)) ((k0, v0) :: kvs2) [] t Hkey Hval
              (by intro kv _ p hp; simp at hp) hsort]
            simp only [List.nil_append, except_bind_ok]

/-- C1: for every representable value, decoding the encoder's output yields
the value back, and the decoder consumes exactly the encoded bytes — with
arbitrary trailing bytes present, exactly those bytes are left over. -/
theorem decode_encode_roundtrip (v : MsgValue) (t : List Nat) (h : wfValue v = true) :
    decodeFrame (encodeValue v) = .ok (v, [])
    ∧ decodeFrame (encodeValue v ++ t) = .ok (v, t) := by
  constructor
  · have hx := readValue_encodeValue ((encodeValue v).length + 1) v [] h (by omega)
    rw [List.append_nil] at hx
    exact hx
  · exact readValue_encodeValue ((encodeValue v ++ t).length + 1) v t h
      (by simp only [List.length_append]; omega)

/-- C1 witness: a nested map exercising every constructor, with one trailing
byte left untouched. -/
theorem decode_encode_roundtrip_witness :
    wfValue (.mobj
      [(sb "a", .mint 1),
       (sb "b", .marr [.mnil, .mbool true, .mfloat 7, .mstr [104, 105]]),
       (sb "c", .mint (-300))]) = true
    ∧ decodeFrame (encodeValue (.mobj
        [(sb "a", .mint 1),
         (sb "b", .marr [.mnil, .mbool true, .mfloat 7, .mstr [104, 105]]),
         (sb "c", .mint (-300))]) ++ [0xC0])
      = .ok (.mobj
          [(sb "a", .mint 1),
           (sb "b", .marr [.mnil, .mbool true, .mfloat 7, .mstr [104, 105]]),
           (sb "c", .mint (-300))], [0xC0]) := by
  refine ⟨by decide, ?_⟩
  exact (decode_encode_roundtrip _ [0xC0] (by decide)).2

end Thestuu
